import Mathlib

/-!
# Verification of the SOST CI band-suite harness (`scripts/ci_band_suite.py`)

A shallow embedding of the adaptive invocation prober: flag/subcommand
extraction from help text, keyword scoring, attempt planning, the
execution driver loop, and the suite-level exit code.  Child processes
are abstracted by two functions: `ec : Cmd → Int` gives the exit code of
a command line and `outp : Cmd → String` its captured merged output.
-/

namespace CIBandSuite

/-- One candidate command line: an ordered list of string tokens. -/
abbrev Cmd := List String

/-- The regex character class `[a-zA-Z0-9]`. -/
def isAlnumChar (c : Char) : Bool := c.isAlpha || c.isDigit

/-- The regex character class `[a-zA-Z0-9_-]`. -/
def isWordDashChar (c : Char) : Bool := c.isAlpha || c.isDigit || c = '_' || c = '-'

/-- Python's `needle in hay` substring test, on explicit character lists. -/
def containsSub (hay needle : List Char) : Bool :=
  (List.range (hay.length + 1)).any (fun i => needle.isPrefixOf (hay.drop i))

/-- Python's `str.lower()`, as a character list (ASCII lowering). -/
def lowerChars (s : String) : List Char := s.data.map Char.toLower

/-- Python's `str.strip()` whitespace set. -/
def isPySpace (c : Char) : Bool :=
  c = ' ' || c = '\t' || c = '\n' || c = '\r' || c = '\x0b' || c = '\x0c'

/-- Python's `str.strip()` on a character list. -/
def pyStrip (l : List Char) : List Char :=
  ((l.dropWhile isPySpace).reverse.dropWhile isPySpace).reverse

/-- Python's `str.split(",")` on a character list, with an accumulator for
the current (reversed) piece. -/
def splitComma : List Char → List Char → List (List Char)
  | [], acc => [acc.reverse]
  | c :: rest, acc =>
    if c = ',' then acc.reverse :: splitComma rest []
    else splitComma rest (c :: acc)

/-- POSIX path join `d / f` from `pathlib`. -/
def pathJoin (d f : String) : String := d ++ "/" ++ f

/-- `pathlib.PurePath.stem`: the final path component, with its suffix
removed when the last dot is neither the first nor the last character of
that component. -/
def pathStem (p : String) : String :=
  let name := (p.data.reverse.takeWhile (fun c => c ≠ '/')).reverse
  let n := name.length
  let r := name.reverse.indexOf '.'
  if r < n then
    let i := n - 1 - r
    if 0 < i ∧ i < n - 1 then String.mk (name.take i) else String.mk name
  else String.mk name

/-- Python's string comparison `a < b`: lexicographic on code points. -/
def charListLtB : List Char → List Char → Bool
  | [], [] => false
  | [], _ :: _ => true
  | _ :: _, [] => false
  | a :: as, b :: bs =>
    if a < b then true
    else if b < a then false
    else charListLtB as bs

/-- Python's `a < b` on strings. -/
def strLtB (a b : String) : Bool := charListLtB a.data b.data

/-- Python's `a <= b` on strings (total-order complement of `strLtB`). -/
def strLeB (a b : String) : Bool := ! strLtB b a

/-- The scan performed by `re.findall(r"(--[a-zA-Z0-9][a-zA-Z0-9_-]*)", ·)`
(src line 42): leftmost, non-overlapping, greedy.  At each position the
engine tries to match `--`, one alphanumeric character, then a maximal
run of word/dash characters; on success it emits the token and resumes
after it, on failure it advances one character. -/
def findFlagsF : Nat → List Char → List (List Char)
  | 0, _ => []
  | fuel + 1, l =>
    match l with
    | '-' :: '-' :: c :: rest =>
      if isAlnumChar c then
        ('-' :: '-' :: c :: rest.takeWhile isWordDashChar) ::
          findFlagsF fuel (rest.dropWhile isWordDashChar)
      else
        findFlagsF fuel ('-' :: c :: rest)
    | _ :: rest => findFlagsF fuel rest
    | [] => []

/-- The flag scan of the whole text: the fuel `l.length + 1` always
suffices, since every step of `findFlagsF` shortens the list. -/
def findFlags (l : List Char) : List (List Char) := findFlagsF (l.length + 1) l

/-- `extract_long_flags` (src lines 40-43): `sorted(set(re.findall(...)))`. -/
def extract_long_flags (help_text : String) : List String :=
  List.insertionSort (fun a b => strLeB a b = true) (((findFlags help_text.data).map String.mk).dedup)

/-- The leftmost match of `re.search(r"\{([^}]+)\}", ·)` (src line 47),
returning the captured group: the engine matches at the first `{` that
is followed by at least one non-`}` character and then a `}`; on failure
it advances one character. -/
def searchBraceGroup : List Char → Option (List Char)
  | [] => none
  | c :: rest =>
    if c = '{' then
      let run := rest.takeWhile (fun d => d ≠ '}')
      if run ≠ [] ∧ (rest.drop run.length).head? = some '}' then some run
      else searchBraceGroup rest
    else searchBraceGroup rest

/-- `detect_subcommands` (src lines 46-52). -/
def detect_subcommands (help_text : String) : List String :=
  match searchBraceGroup help_text.data with
  | none => []
  | some raw =>
    let parts := (splitComma raw []).map (fun p => String.mk (pyStrip p))
    parts.filter (fun p => p ≠ "")

/-- The keyword score of one flag: how many keywords occur as substrings
of the lowercased flag (inner loop of `pick_best_flag`, src lines 60-64). -/
def flag_score (keywords : List String) (flg : String) : Nat :=
  keywords.countP (fun kw => containsSub (lowerChars flg) kw.data)

/-- The accumulator loop of `pick_best_flag` (src lines 57-67): `best`
and `best_score` start at `None` and `-1`; a flag replaces the running
best only when its score is strictly greater. -/
def pickLoop (keywords : List String) : List String → Option String → Int → Option String × Int
  | [], best, best_score => (best, best_score)
  | flg :: rest, best, best_score =>
    if best_score < (flag_score keywords flg : Int) then
      pickLoop keywords rest (some flg) (flag_score keywords flg)
    else
      pickLoop keywords rest best best_score

/-- `pick_best_flag` (src lines 55-68). -/
def pick_best_flag (flags keywords : List String) : Option String :=
  let r := pickLoop keywords flags none (-1)
  if 0 < r.2 then r.1 else none

/-- `out_expects_file` (src lines 71-76): a flag whose lowercased name
contains `dir` or `folder` designates a directory, otherwise a file. -/
def out_expects_file (out_flag : String) : Bool :=
  let low := lowerChars out_flag
  if containsSub low "dir".data || containsSub low "folder".data then false else true

/-- The subcommand candidates `subcmds_to_try` (src lines 91-96): `[None]`
when no subcommands were detected; otherwise `run` if present else the
first detected subcommand, followed by `None`. -/
def subcmds_to_try : List String → List (Option String)
  | [] => [none]
  | s :: rest => if "run" ∈ s :: rest then [some "run", none] else [some s, none]

/-- `mk_cmd` (src lines 100-117), the inner command builder of
`build_attempts`. -/
def mk_cmd (exe script csv out_band_dir : String) (input_flag out_flag : Option String)
    (subcmd : Option String) (use_input_flag use_out : Bool) : Cmd :=
  let cmd : Cmd := [exe, script]
  let cmd := match subcmd with
    | some s => cmd ++ [s]
    | none => cmd
  let cmd := match input_flag with
    | some iflag => if use_input_flag then cmd ++ [iflag, csv] else cmd ++ [csv]
    | none => cmd ++ [csv]
  match out_flag with
  | some oflag =>
    if use_out then
      if out_expects_file oflag then cmd ++ [oflag, pathJoin out_band_dir "sost_out.json"]
      else cmd ++ [oflag, out_band_dir]
    else cmd
  | none => cmd

/-- The heuristic attempts of `build_attempts` (src lines 119-125): for
each subcommand candidate, four attempts when an input flag was found,
otherwise two. -/
def heuristic_attempts (exe script csv out_band_dir : String)
    (input_flag out_flag : Option String) (subcmds : List (Option String)) : List Cmd :=
  subcmds.flatMap (fun subcmd =>
    (if input_flag.isSome then
      [mk_cmd exe script csv out_band_dir input_flag out_flag subcmd true true,
       mk_cmd exe script csv out_band_dir input_flag out_flag subcmd true false]
     else []) ++
    [mk_cmd exe script csv out_band_dir input_flag out_flag subcmd false true,
     mk_cmd exe script csv out_band_dir input_flag out_flag subcmd false false])

/-- `hard_inputs` (src lines 128-137): the fixed fallback vocabulary of
input-flag spellings. -/
def hard_inputs (csv : String) : List (List String) :=
  [["--input", csv], ["--input-csv", csv], ["--input_csv", csv], ["--csv", csv],
   ["--csv-path", csv], ["--csv_path", csv], ["--path", csv], ["--file", csv]]

/-- `hard_outs` (src lines 138-146): the fixed fallback vocabulary of
output-flag spellings. -/
def hard_outs (out_band_dir : String) : List (List String) :=
  [["--outdir", out_band_dir], ["--out-dir", out_band_dir], ["--out_dir", out_band_dir],
   ["--output-dir", out_band_dir], ["--output_dir", out_band_dir],
   ["--out", pathJoin out_band_dir "sost_out.json"],
   ["--output", pathJoin out_band_dir "sost_out.json"]]

/-- The brute-force fallback attempts of `build_attempts` (src lines
147-155). -/
def fallback_attempts (exe script csv out_band_dir : String)
    (subcmds : List (Option String)) : List Cmd :=
  subcmds.flatMap (fun subcmd =>
    let base : Cmd := [exe, script] ++ (match subcmd with | some s => [s] | none => [])
    ((hard_inputs csv).flatMap (fun hi =>
      ((hard_outs out_band_dir).map (fun ho => base ++ hi ++ ho)) ++ [base ++ hi])) ++
    ((hard_outs out_band_dir).map (fun ho => base ++ [csv] ++ ho)) ++
    [base ++ [csv]])

/-- The deduplication loop of `build_attempts` (src lines 157-165): keep
each command's first occurrence, tracking already-seen commands. -/
def dedupFirst : List Cmd → List Cmd → List Cmd
  | [], _ => []
  | a :: rest, seen =>
    if a ∈ seen then dedupFirst rest seen
    else a :: dedupFirst rest (a :: seen)

/-- The raw generation order of `build_attempts` (src lines 98-155):
heuristic attempts first, then the brute-force fallback, before
deduplication. -/
def raw_attempts (exe script csv out_band_dir help_text : String) : List Cmd :=
  heuristic_attempts exe script csv out_band_dir
      (pick_best_flag (extract_long_flags help_text) ["input", "csv", "path", "file"])
      (pick_best_flag (extract_long_flags help_text) ["out", "output", "report", "result"])
      (subcmds_to_try (detect_subcommands help_text)) ++
    fallback_attempts exe script csv out_band_dir (subcmds_to_try (detect_subcommands help_text))

/-- `build_attempts` (src lines 79-165): the raw generation order with
later duplicates removed. -/
def build_attempts (exe script csv out_band_dir help_text : String) : List Cmd :=
  dedupFirst (raw_attempts exe script csv out_band_dir help_text) []

/-- One record written to a per-dataset log file by `run_cmd`: the
command line, the captured merged output, and the exit code. -/
structure LogRecord where
  cmd : Cmd
  output : String
  exit_code : Int
deriving DecidableEq, Repr

/-- `run_cmd` (src lines 13-27).  The log file is opened with mode `"w"`,
so the record written for this command replaces the previous log
contents; the function returns the new log contents and the exit code. -/
def runCmd (ec : Cmd → Int) (outp : Cmd → String) (cmd : Cmd)
    (_log : List LogRecord) : List LogRecord × Int :=
  ([{ cmd := cmd, output := outp cmd, exit_code := ec cmd }], ec cmd)

/-- The attempt loop of `main` (src lines 242-252): run attempts in
order; on exit code 2 continue with the next attempt, on any other exit
code stop.  Returns the commands actually executed in execution order,
the final log contents, and the final (command, exit code) pair —
`none` when every attempt exited 2. -/
def driveAttempts (ec : Cmd → Int) (outp : Cmd → String) :
    List Cmd → List LogRecord → List Cmd × List LogRecord × Option (Cmd × Int)
  | [], log => ([], log, none)
  | cmd :: rest, log =>
    let r := runCmd ec outp cmd log
    if r.2 = 2 then
      let next := driveAttempts ec outp rest r.1
      (cmd :: next.1, next.2)
    else ([cmd], r.1, some (cmd, r.2))

/-- The per-dataset finalization of `main` (src lines 242-258): the
driver's result, or — when every attempt exited 2 — exit code 2 with
the plan's last attempt (or `[sys.executable, script]` for an empty
plan). -/
def datasetOutcome (ec : Cmd → Int) (outp : Cmd → String) (exe script : String)
    (attempts : List Cmd) : Cmd × Int :=
  match (driveAttempts ec outp attempts []).2.2 with
  | some (c, rc) => (c, rc)
  | none => ((attempts.getLast?).getD [exe, script], 2)

/-- `success = (final_rc == 0)` (src line 258). -/
def successFlag (rc : Int) : Bool := rc == 0

/-- One dataset's outcome as recorded in the summary (src lines 262-271). -/
structure BandResult where
  band : String
  csv : String
  success : Bool
  exit_code : Int
  cmd : Cmd
  log : List LogRecord
deriving Repr

/-- One iteration of the dataset loop of `main` (src lines 234-271). -/
def runDataset (ec : Cmd → Int) (outp : Cmd → String)
    (exe script help_text out_root : String) (csv : String) : BandResult :=
  let stem := pathStem csv
  let out_band_dir := pathJoin out_root stem
  let attempts := build_attempts exe script csv out_band_dir help_text
  let d := driveAttempts ec outp attempts []
  let fin := datasetOutcome ec outp exe script attempts
  { band := stem, csv := csv, success := successFlag fin.2, exit_code := fin.2,
    cmd := fin.1, log := d.2.1 }

/-- The exit code of `main` (src lines 211-289): 2 when no datasets were
discovered (src line 226), otherwise 0 when at least one dataset
succeeded and 2 when all failed (src line 289).  The top-level exception
handler (src line 294) also returns 2. -/
def mainExit (ec : Cmd → Int) (outp : Cmd → String)
    (exe script help_text out_root : String) (csvs : List String) : Int :=
  if csvs.isEmpty then 2
  else
    let results := csvs.map (runDataset ec outp exe script help_text out_root)
    let ok_count := results.countP (fun r => r.success)
    if 0 < ok_count then 0 else 2

/-- Token starting at position `i` under the flag-extraction rule as the
specification words it: a double-dash prefix followed by one or more
alphanumeric/hyphen/underscore characters, not immediately preceded by
another dash-word character.  This definition follows the claim's words,
to be compared with `extract_long_flags`, which follows the source. -/
def claimedTokenAt (s : List Char) (i : Nat) : Option (List Char) :=
  match s.drop i with
  | '-' :: '-' :: rest =>
    let run := rest.takeWhile isWordDashChar
    if run = [] then none
    else if i = 0 ∨ isWordDashChar (s.getD (i - 1) ' ') = false then some ('-' :: '-' :: run)
    else none
  | _ => none

/-- The distinct set of tokens described by the claim's flag-extraction
rule, sorted like `extract_long_flags` for comparison. -/
def claimedFlagExtraction (help_text : String) : List String :=
  let s := help_text.data
  List.insertionSort (fun a b => strLeB a b = true)
    ((((List.range s.length).filterMap (fun i => claimedTokenAt s i)).map String.mk).dedup)

/-! ## Lemmas about the execution driver -/

/-- While every attempt before `a` exits 2, the driver passes over each
of them and stops at `a`, whose exit code is not 2; nothing after `a` is
executed, the final log holds only the record of `a`, and the result is
`(a, ec a)`. -/
theorem driveAttempts_stops (ec : Cmd → Int) (outp : Cmd → String) (a : Cmd)
    (l2 : List Cmd) (h2 : ec a ≠ 2) :
    ∀ (l1 : List Cmd) (log : List LogRecord), (∀ b ∈ l1, ec b = 2) →
      driveAttempts ec outp (l1 ++ a :: l2) log =
        (l1 ++ [a], [⟨a, outp a, ec a⟩], some (a, ec a)) := by
  intro l1
  induction l1 with
  | nil =>
    intro log _
    simp [driveAttempts, runCmd, h2]
  | cons b bs ih =>
    intro log h1
    have hb : ec b = 2 := h1 b (List.mem_cons_self _ _)
    simp [driveAttempts, runCmd, hb,
      ih _ (fun x hx => h1 x (List.mem_cons_of_mem _ hx))]

/-- When every attempt exits 2 the driver reaches the end of the plan
with no final result. -/
theorem driveAttempts_none (ec : Cmd → Int) (outp : Cmd → String) :
    ∀ (l : List Cmd) (log : List LogRecord), (∀ b ∈ l, ec b = 2) →
      (driveAttempts ec outp l log).2.2 = none := by
  intro l
  induction l with
  | nil => intro log _; rfl
  | cons b bs ih =>
    intro log h
    have hb : ec b = 2 := h b (List.mem_cons_self _ _)
    simp [driveAttempts, runCmd, hb,
      ih _ (fun x hx => h x (List.mem_cons_of_mem _ hx))]

/-- C1: the Execution Driver runs Attempts strictly in plan order;
every attempt exiting 2 is executed but passed over, and the first
attempt whose exit code is not 2 stops the search — no later attempt is
executed — and that attempt together with its exit code becomes the
dataset's result. -/
theorem driver_short_circuit (ec : Cmd → Int) (outp : Cmd → String) (exe script : String)
    (l1 : List Cmd) (a : Cmd) (l2 : List Cmd)
    (h1 : ∀ b ∈ l1, ec b = 2) (h2 : ec a ≠ 2) :
    driveAttempts ec outp (l1 ++ a :: l2) [] =
      (l1 ++ [a], [⟨a, outp a, ec a⟩], some (a, ec a))
    ∧ datasetOutcome ec outp exe script (l1 ++ a :: l2) = (a, ec a) := by
  have h := driveAttempts_stops ec outp a l2 h2 l1 [] h1
  refine ⟨h, ?_⟩
  simp [datasetOutcome, h]

/-- Witness for C1 at a concrete plan: the first attempt exits 2 and is
passed over, the second exits 0 and is final, the third is never
executed. -/
theorem driver_short_circuit_witness :
    driveAttempts (fun c => if c = ["t", "y"] then (0 : Int) else 2) (fun _ => "out")
        ([["t", "x"]] ++ ["t", "y"] :: [["t", "z"]]) [] =
      ([["t", "x"]] ++ [["t", "y"]], [⟨["t", "y"], "out", 0⟩], some (["t", "y"], 0))
    ∧ datasetOutcome (fun c => if c = ["t", "y"] then (0 : Int) else 2) (fun _ => "out")
        "py" "t" ([["t", "x"]] ++ ["t", "y"] :: [["t", "z"]]) = (["t", "y"], 0) :=
  driver_short_circuit (fun c => if c = ["t", "y"] then (0 : Int) else 2) (fun _ => "out")
    "py" "t" [["t", "x"]] ["t", "y"] [["t", "z"]] (by decide) (by decide)

/-- C2 (code bug): the spec says each executed Attempt's record is
appended to the per-dataset log, but `run_cmd` opens the log with mode
`"w"`, so each record overwrites the log.  Concretely, with a plan of
two attempts where the first exits 2 and the second exits 0, both
attempts are executed, yet the final log holds only the second
attempt's record — the first record is dropped. -/
theorem log_overwritten_not_appended :
    (driveAttempts (fun c => if c = ["py", "t", "run", "a.csv"] then 0 else 2) (fun _ => "")
        [["py", "t", "a.csv"], ["py", "t", "run", "a.csv"]] []).1 =
      [["py", "t", "a.csv"], ["py", "t", "run", "a.csv"]]
    ∧ (driveAttempts (fun c => if c = ["py", "t", "run", "a.csv"] then 0 else 2) (fun _ => "")
        [["py", "t", "a.csv"], ["py", "t", "run", "a.csv"]] []).2.1 =
      [⟨["py", "t", "run", "a.csv"], "", 0⟩] :=
  ⟨by decide, by decide⟩

/-- C4: when every attempt of a non-empty plan exits 2, the dataset's
final exit code is 2, the recorded attempt is the plan's last entry, and
the success flag is false. -/
theorem all_usage_errors (ec : Cmd → Int) (outp : Cmd → String) (exe script : String)
    (attempts : List Cmd) (hne : attempts ≠ []) (h : ∀ c ∈ attempts, ec c = 2) :
    datasetOutcome ec outp exe script attempts = (attempts.getLast hne, 2)
    ∧ successFlag (datasetOutcome ec outp exe script attempts).2 = false := by
  have h0 := driveAttempts_none ec outp attempts [] h
  have h1 : datasetOutcome ec outp exe script attempts = (attempts.getLast hne, 2) := by
    simp [datasetOutcome, h0, List.getLast?_eq_getLast_of_ne_nil hne]
  exact ⟨h1, by rw [h1]; rfl⟩

/-- Witness for C4 at a concrete two-attempt plan on which every attempt
exits 2. -/
theorem all_usage_errors_witness :
    datasetOutcome (fun _ => 2) (fun _ => "") "py" "t" [["t", "x"], ["t", "y"]] = (["t", "y"], 2)
    ∧ successFlag (datasetOutcome (fun _ => 2) (fun _ => "") "py" "t"
        [["t", "x"], ["t", "y"]]).2 = false :=
  all_usage_errors (fun _ => 2) (fun _ => "") "py" "t" [["t", "x"], ["t", "y"]]
    (by decide) (by decide)

/-! ## The suite-level exit code -/

/-- C3 (amended): the harness exits 0 exactly when at least one
discovered dataset succeeded; in every other modelled case — no datasets
discovered, or all discovered datasets failed — it exits 2, the same
code for both (the top-level exception handler, src line 294, also
returns 2). -/
theorem mainExit_characterization (ec : Cmd → Int) (outp : Cmd → String)
    (exe script help_text out_root : String) (csvs : List String) :
    (mainExit ec outp exe script help_text out_root csvs = 0
      ∨ mainExit ec outp exe script help_text out_root csvs = 2)
    ∧ (mainExit ec outp exe script help_text out_root csvs = 0 ↔
        ∃ csv ∈ csvs,
          (runDataset ec outp exe script help_text out_root csv).success = true) := by
  have key : (0 < (csvs.map (runDataset ec outp exe script help_text out_root)).countP
      (fun r => r.success)) ↔
      ∃ csv ∈ csvs,
        (runDataset ec outp exe script help_text out_root csv).success = true := by
    rw [List.countP_map, List.countP_pos_iff]
    simp [Function.comp]
  have hm : mainExit ec outp exe script help_text out_root csvs =
      if csvs.isEmpty then 2
      else if 0 < (csvs.map (runDataset ec outp exe script help_text out_root)).countP
          (fun r => r.success) then 0 else 2 := rfl
  rw [hm]
  cases csvs with
  | nil => simp
  | cons c cs =>
    rw [List.isEmpty_cons, if_neg (by simp)]
    by_cases hp : 0 < ((c :: cs).map
        (runDataset ec outp exe script help_text out_root)).countP (fun r => r.success)
    · rw [if_pos hp]
      exact ⟨Or.inl rfl, iff_of_true rfl (key.mp hp)⟩
    · rw [if_neg hp]
      exact ⟨Or.inr rfl, iff_of_false (by norm_num) (fun hex => hp (key.mpr hex))⟩

/-- C3 counterexample: the claim asserts the no-datasets exit code and
the all-datasets-failed exit code differ, but both are 2: an empty
discovery list exits 2, and a run with one discovered dataset whose
every attempt fails (exit code 1) also exits 2. -/
theorem exit_codes_coincide :
    mainExit (fun _ => 1) (fun _ => "") "py" "t" "" "/o" [] = 2
    ∧ mainExit (fun _ => 1) (fun _ => "") "py" "t" "" "/o" ["band_a.csv"] = 2
    ∧ (runDataset (fun _ => 1) (fun _ => "") "py" "t" "" "/o" "band_a.csv").success = false :=
  ⟨rfl, by decide, by decide⟩

/-- C6: on the scenario help text the Flag Extractor yields exactly
`--input-csv` and `--outdir`, the subcommand list is `[run, check]`,
and the planner's first generated attempt invokes the tool with
arguments `run --input-csv a.csv --outdir /o/a` in that token order. -/
theorem scenario_first_attempt (exe script : String) :
    extract_long_flags "usage: tool {run,check} --input-csv PATH --outdir DIR" =
      ["--input-csv", "--outdir"]
    ∧ detect_subcommands "usage: tool {run,check} --input-csv PATH --outdir DIR" =
      ["run", "check"]
    ∧ (build_attempts exe script "a.csv" "/o/a"
        "usage: tool {run,check} --input-csv PATH --outdir DIR").head? =
      some [exe, script, "run", "--input-csv", "a.csv", "--outdir", "/o/a"] :=
  ⟨by decide, by decide, rfl⟩

/-! ## Lemmas about the attempt planner -/

/-- Membership in the deduplication loop: an attempt survives exactly
when it occurs in the remaining input and was not seen before. -/
theorem mem_dedupFirst (a : Cmd) :
    ∀ (l seen : List Cmd), a ∈ dedupFirst l seen ↔ a ∈ l ∧ a ∉ seen := by
  intro l
  induction l with
  | nil => intro seen; simp [dedupFirst]
  | cons b bs ih =>
    intro seen
    by_cases hb : b ∈ seen
    · rw [dedupFirst, if_pos hb, ih]
      constructor
      · rintro ⟨h1, h2⟩
        exact ⟨List.mem_cons_of_mem _ h1, h2⟩
      · rintro ⟨h1, h2⟩
        rcases List.mem_cons.mp h1 with rfl | h1
        · exact absurd hb h2
        · exact ⟨h1, h2⟩
    · rw [dedupFirst, if_neg hb]
      constructor
      · intro h
        rcases List.mem_cons.mp h with rfl | h
        · exact ⟨List.mem_cons_self _ _, hb⟩
        · have h3 := (ih _).mp h
          exact ⟨List.mem_cons_of_mem _ h3.1,
            fun hs => h3.2 (List.mem_cons_of_mem _ hs)⟩
      · rintro ⟨h1, h2⟩
        rcases List.mem_cons.mp h1 with rfl | h1
        · exact List.mem_cons_self _ _
        · by_cases hab : a = b
          · subst hab; exact List.mem_cons_self _ _
          · exact List.mem_cons_of_mem _ ((ih _).mpr ⟨h1, by simp [hab, h2]⟩)

/-- The deduplication loop never emits an attempt twice. -/
theorem nodup_dedupFirst : ∀ (l seen : List Cmd), (dedupFirst l seen).Nodup := by
  intro l
  induction l with
  | nil => intro seen; simp [dedupFirst]
  | cons b bs ih =>
    intro seen
    by_cases hb : b ∈ seen
    · simpa [dedupFirst, hb] using ih seen
    · rw [dedupFirst, if_neg hb, List.nodup_cons]
      refine ⟨fun hmem => ?_, ih _⟩
      exact ((mem_dedupFirst b bs (b :: seen)).mp hmem).2 (List.mem_cons_self _ _)

/-- The deduplication loop preserves the generation order: its output is
an order-preserving selection from its input. -/
theorem dedupFirst_sublist : ∀ (l seen : List Cmd), (dedupFirst l seen).Sublist l := by
  intro l
  induction l with
  | nil => intro seen; simp [dedupFirst]
  | cons b bs ih =>
    intro seen
    by_cases hb : b ∈ seen
    · rw [dedupFirst, if_pos hb]
      exact (ih seen).cons _
    · rw [dedupFirst, if_neg hb]
      exact (ih _).cons₂ _

/-- C8: the final AttemptPlan is the raw generation order — heuristic
attempts first, then the brute-force fallback — with later duplicates
removed: it contains no two token-sequence-equal attempts, it is an
order-preserving selection from the raw order, and it has exactly the
raw attempts as members. -/
theorem attempt_plan_dedup (exe script csv out_band_dir help_text : String) :
    build_attempts exe script csv out_band_dir help_text =
      dedupFirst (raw_attempts exe script csv out_band_dir help_text) []
    ∧ (build_attempts exe script csv out_band_dir help_text).Nodup
    ∧ (build_attempts exe script csv out_band_dir help_text).Sublist
        (raw_attempts exe script csv out_band_dir help_text)
    ∧ ∀ a : Cmd, a ∈ build_attempts exe script csv out_band_dir help_text ↔
        a ∈ raw_attempts exe script csv out_band_dir help_text := by
  refine ⟨rfl, nodup_dedupFirst _ _, dedupFirst_sublist _ _, fun a => ?_⟩
  rw [build_attempts, mem_dedupFirst]
  simp

/-- The subcommand candidate list is never empty. -/
theorem subcmds_to_try_ne_nil (subs : List String) : subcmds_to_try subs ≠ [] := by
  cases subs with
  | nil => simp [subcmds_to_try]
  | cons s rest =>
    rw [subcmds_to_try]
    split <;> simp

/-- The heuristic part of the plan is non-empty whenever there is at
least one subcommand candidate. -/
theorem heuristic_attempts_ne_nil (exe script csv out_band_dir : String)
    (input_flag out_flag : Option String) (subcmds : List (Option String))
    (h : subcmds ≠ []) :
    heuristic_attempts exe script csv out_band_dir input_flag out_flag subcmds ≠ [] := by
  cases subcmds with
  | nil => exact absurd rfl h
  | cons sc scs =>
    intro hcon
    rw [heuristic_attempts, List.flatMap_cons] at hcon
    have h1 := (List.append_eq_nil.mp hcon).1
    have h2 := (List.append_eq_nil.mp h1).2
    simp at h2

/-- C9: the Attempt Planner is total: for every help text — in
particular one yielding zero flags and zero subcommands — and every
dataset path and output directory, the plan it returns is non-empty. -/
theorem planner_never_empty :
    (∀ exe script csv out_band_dir help_text : String,
      extract_long_flags help_text = [] → detect_subcommands help_text = [] →
      build_attempts exe script csv out_band_dir help_text ≠ [])
    ∧ ∀ exe script csv out_band_dir help_text : String,
      build_attempts exe script csv out_band_dir help_text ≠ [] := by
  have main : ∀ exe script csv out_band_dir help_text : String,
      build_attempts exe script csv out_band_dir help_text ≠ [] := by
    intro exe script csv out_band_dir help_text
    rw [build_attempts]
    have hraw : raw_attempts exe script csv out_band_dir help_text ≠ [] := by
      rw [raw_attempts]
      intro hcon
      exact heuristic_attempts_ne_nil _ _ _ _ _ _ _
        (subcmds_to_try_ne_nil _) (List.append_eq_nil.mp hcon).1
    cases hr : raw_attempts exe script csv out_band_dir help_text with
    | nil => exact absurd hr hraw
    | cons a rest =>
      simp [dedupFirst]
  exact ⟨fun exe script csv obd ht _ _ => main exe script csv obd ht, main⟩

/-- Witness for C9 at the empty help text, which yields zero flags and
zero subcommands. -/
theorem planner_never_empty_witness :
    extract_long_flags "" = [] ∧ detect_subcommands "" = []
    ∧ build_attempts "py" "t" "a.csv" "/o" "" ≠ [] :=
  ⟨by decide, by decide,
    planner_never_empty.1 "py" "t" "a.csv" "/o" "" (by decide) (by decide)⟩

/-! ## Lemmas about keyword scoring -/

/-- Full characterization of the `pick_best_flag` accumulator loop:
either no flag scores strictly above the running best and the
accumulator is returned unchanged, or the loop returns the first flag
attaining the maximum score: every earlier flag scores strictly less
and every later flag scores no more. -/
theorem pickLoop_spec (keywords : List String) :
    ∀ (l : List String) (b : Option String) (s : Int),
      (pickLoop keywords l b s = (b, s) ∧ ∀ g ∈ l, (flag_score keywords g : Int) ≤ s)
      ∨ (∃ l1 f l2, l = l1 ++ f :: l2
          ∧ s < (flag_score keywords f : Int)
          ∧ (∀ g ∈ l1, flag_score keywords g < flag_score keywords f)
          ∧ (∀ g ∈ l2, flag_score keywords g ≤ flag_score keywords f)
          ∧ pickLoop keywords l b s = (some f, (flag_score keywords f : Int))) := by
  intro l
  induction l with
  | nil =>
    intro b s
    left
    exact ⟨rfl, by simp⟩
  | cons x xs ih =>
    intro b s
    by_cases hx : s < (flag_score keywords x : Int)
    · rcases ih (some x) (flag_score keywords x) with ⟨heq, hall⟩ |
        ⟨l1, f, l2, hsplit, hf, hl1, hl2, heq⟩
      · right
        refine ⟨[], x, xs, rfl, hx, by simp, ?_, ?_⟩
        · intro g hg
          exact_mod_cast hall g hg
        · simp only [pickLoop, if_pos hx]
          exact heq
      · right
        refine ⟨x :: l1, f, l2, by rw [hsplit, List.cons_append], lt_trans hx hf, ?_, hl2, ?_⟩
        · intro g hg
          rcases List.mem_cons.mp hg with rfl | hg
          · exact_mod_cast hf
          · exact hl1 g hg
        · simp only [pickLoop, if_pos hx]
          exact heq
    · rcases ih b s with ⟨heq, hall⟩ | ⟨l1, f, l2, hsplit, hf, hl1, hl2, heq⟩
      · left
        refine ⟨?_, ?_⟩
        · simp only [pickLoop, if_neg hx]
          exact heq
        · intro g hg
          rcases List.mem_cons.mp hg with rfl | hg
          · exact le_of_not_lt hx
          · exact hall g hg
      · right
        refine ⟨x :: l1, f, l2, by rw [hsplit, List.cons_append], hf, ?_, hl2, ?_⟩
        · intro g hg
          rcases List.mem_cons.mp hg with rfl | hg
          · have hgf : (flag_score keywords g : Int) < (flag_score keywords f : Int) :=
              lt_of_le_of_lt (le_of_not_lt hx) hf
            exact_mod_cast hgf
          · exact hl1 g hg
        · simp only [pickLoop, if_neg hx]
          exact heq

/-- C7: keyword scoring selects the first flag attaining the maximum
score when that maximum is strictly positive — every earlier flag
scores strictly less, so a later flag with an equal score never
replaces the selection — returns no flag when every flag scores zero
(in particular on the empty list), and is deterministic. -/
theorem keyword_scoring_spec (flags keywords : List String) :
    (pick_best_flag flags keywords = none ↔ ∀ f ∈ flags, flag_score keywords f = 0)
    ∧ (∀ f, pick_best_flag flags keywords = some f →
        f ∈ flags ∧ 0 < flag_score keywords f
        ∧ (∀ g ∈ flags, flag_score keywords g ≤ flag_score keywords f)
        ∧ ∃ l1 l2, flags = l1 ++ f :: l2
            ∧ ∀ g ∈ l1, flag_score keywords g < flag_score keywords f)
    ∧ (∀ r1 r2 : Option String, pick_best_flag flags keywords = r1 →
        pick_best_flag flags keywords = r2 → r1 = r2) := by
  have hdet : ∀ r1 r2 : Option String, pick_best_flag flags keywords = r1 →
      pick_best_flag flags keywords = r2 → r1 = r2 := by
    intro r1 r2 h1 h2
    rw [← h1, ← h2]
  rcases pickLoop_spec keywords flags none (-1) with ⟨heq, hall⟩ |
    ⟨l1, f, l2, hsplit, hf, hl1, hl2, heq⟩
  · have hemp : flags = [] := by
      cases flags with
      | nil => rfl
      | cons x xs =>
        have hx := hall x (List.mem_cons_self _ _)
        have hge : (0 : Int) ≤ (flag_score keywords x : Int) := Int.natCast_nonneg _
        omega
    subst hemp
    refine ⟨by simp [pick_best_flag, pickLoop], ?_, hdet⟩
    intro f hsome
    simp [pick_best_flag, pickLoop] at hsome
  · have hpick : pick_best_flag flags keywords =
        if 0 < (flag_score keywords f : Int) then some f else none := by
      rw [pick_best_flag, heq]
    by_cases hpos : 0 < flag_score keywords f
    · have hsome : pick_best_flag flags keywords = some f := by
        rw [hpick, if_pos (by exact_mod_cast hpos)]
      refine ⟨?_, ?_, hdet⟩
      · rw [hsome]
        refine iff_of_false (by simp) fun hallz => ?_
        have hfz := hallz f (by rw [hsplit]; exact List.mem_append_right _ (List.mem_cons_self _ _))
        omega
      · intro f' hf'
        obtain rfl : f = f' := Option.some.inj (hsome.symm.trans hf')
        refine ⟨by rw [hsplit]; exact List.mem_append_right _ (List.mem_cons_self _ _),
          hpos, ?_, l1, l2, hsplit, hl1⟩
        intro g hg
        rw [hsplit] at hg
        rcases List.mem_append.mp hg with hg | hg
        · exact le_of_lt (hl1 g hg)
        · rcases List.mem_cons.mp hg with rfl | hg
          · exact le_refl _
          · exact hl2 g hg
    · have hz : flag_score keywords f = 0 := Nat.eq_zero_of_not_pos hpos
      have hnone : pick_best_flag flags keywords = none := by
        rw [hpick, if_neg (by exact_mod_cast hpos)]
      have hallz : ∀ g ∈ flags, flag_score keywords g = 0 := by
        intro g hg
        rw [hsplit] at hg
        rcases List.mem_append.mp hg with hg | hg
        · have := hl1 g hg
          omega
        · rcases List.mem_cons.mp hg with rfl | hg
          · exact hz
          · have := hl2 g hg
            omega
      refine ⟨iff_of_true hnone hallz, ?_, hdet⟩
      intro f' hf'
      rw [hnone] at hf'
      exact absurd hf' (by simp)

/-- Witness for C7: on the sorted flag list `[--out, --output]` with
output keywords, the second flag scores 2, the first scores 1, and the
scorer selects `--output` with the characterization instantiated
concretely. -/
theorem keyword_scoring_spec_witness :
    pick_best_flag ["--out", "--output"] ["out", "output"] = some "--output"
    ∧ ("--output" ∈ [("--out" : String), "--output"]
       ∧ 0 < flag_score ["out", "output"] "--output"
       ∧ (∀ g ∈ [("--out" : String), "--output"],
            flag_score ["out", "output"] g ≤ flag_score ["out", "output"] "--output")
       ∧ ∃ l1 l2, [("--out" : String), "--output"] = l1 ++ "--output" :: l2
           ∧ ∀ g ∈ l1, flag_score ["out", "output"] g < flag_score ["out", "output"] "--output") :=
  ⟨by decide,
    (keyword_scoring_spec ["--out", "--output"] ["out", "output"]).2.1 "--output" (by decide)⟩

/-! ## Lemmas about flag extraction -/

/-- `charListLtB` decides lexicographic comparison of character lists. -/
theorem charListLtB_iff : ∀ a b : List Char, charListLtB a b = true ↔ List.Lex (· < ·) a b := by
  intro a
  induction a with
  | nil =>
    intro b
    cases b with
    | nil => exact iff_of_false (by simp [charListLtB]) (fun h => by cases h)
    | cons y ys => exact iff_of_true rfl List.Lex.nil
  | cons x xs ih =>
    intro b
    cases b with
    | nil => exact iff_of_false (by simp [charListLtB]) (fun h => by cases h)
    | cons y ys =>
      simp only [charListLtB]
      by_cases hxy : x < y
      · rw [if_pos hxy]
        exact iff_of_true rfl (List.Lex.rel hxy)
      · rw [if_neg hxy]
        by_cases hyx : y < x
        · rw [if_pos hyx]
          refine iff_of_false (by simp) (fun h => ?_)
          cases h with
          | cons h => exact absurd hyx (lt_irrefl _)
          | rel h => exact hxy h
        · rw [if_neg hyx]
          obtain rfl : x = y := le_antisymm (le_of_not_lt hyx) (le_of_not_lt hxy)
          rw [ih ys]
          exact (List.Lex.cons_iff).symm

/-- `strLtB` decides the standard strict order on strings. -/
theorem strLtB_iff (a b : String) : strLtB a b = true ↔ a < b :=
  (charListLtB_iff a.data b.data).trans String.lt_iff_toList_lt.symm

/-- `strLeB` decides the standard order on strings. -/
theorem strLeB_iff (a b : String) : strLeB a b = true ↔ a ≤ b := by
  constructor
  · intro h
    refine le_of_not_lt fun hba => ?_
    rw [strLeB, (strLtB_iff b a).mpr hba] at h
    exact absurd h (by simp)
  · intro h
    rw [strLeB]
    cases hq : strLtB b a
    · rfl
    · exact absurd ((strLtB_iff b a).mp hq) (not_lt.mpr h)

instance : IsTrans String (fun a b => strLeB a b = true) :=
  ⟨fun a b c hab hbc => (strLeB_iff a c).mpr
    (le_trans ((strLeB_iff a b).mp hab) ((strLeB_iff b c).mp hbc))⟩

instance : IsTotal String (fun a b => strLeB a b = true) :=
  ⟨fun a b => by
    rcases le_total a b with h | h
    · exact Or.inl ((strLeB_iff a b).mpr h)
    · exact Or.inr ((strLeB_iff b a).mpr h)⟩

instance : IsAntisymm String (fun a b => strLeB a b = true) :=
  ⟨fun a b hab hba => le_antisymm ((strLeB_iff a b).mp hab) ((strLeB_iff b a).mp hba)⟩

/-- The extracted flag list is sorted. -/
theorem extract_sorted_le (h : String) : (extract_long_flags h).Sorted (· ≤ ·) :=
  List.Pairwise.imp (fun hab => (strLeB_iff _ _).mp hab) (List.sorted_insertionSort _ _)

/-- The extracted flag list has no duplicates. -/
theorem extract_nodup (h : String) : (extract_long_flags h).Nodup :=
  ((List.perm_insertionSort _ _).nodup_iff).mpr (List.nodup_dedup _)

/-- The extracted flag list is strictly sorted. -/
theorem extract_sorted_lt (h : String) : (extract_long_flags h).Sorted (· < ·) :=
  (extract_sorted_le h).lt_of_le (extract_nodup h)

/-- Membership in the extracted flag list comes exactly from the scan. -/
theorem mem_extract_iff (h : String) (f : String) :
    f ∈ extract_long_flags h ↔ ∃ t ∈ findFlags h.data, f = String.mk t := by
  rw [extract_long_flags, (List.perm_insertionSort _ _).mem_iff, List.mem_dedup,
    List.mem_map]
  constructor
  · rintro ⟨t, ht, rfl⟩
    exact ⟨t, ht, rfl⟩
  · rintro ⟨t, ht, rfl⟩
    exact ⟨t, ht, rfl⟩

/-- Every token emitted by the scan is a double dash, an alphanumeric
character, then word/dash characters, and occurs contiguously in the
scanned text. -/
theorem findFlagsF_shape :
    ∀ (fuel : Nat) (l : List Char) (t : List Char), t ∈ findFlagsF fuel l →
      (∃ c cs, t = '-' :: '-' :: c :: cs ∧ isAlnumChar c = true
        ∧ ∀ x ∈ cs, isWordDashChar x = true)
      ∧ t <:+: l := by
  intro fuel
  induction fuel with
  | zero =>
    intro l t ht
    simp [findFlagsF] at ht
  | succ fuel ih =>
    intro l t ht
    rw [findFlagsF.eq_def] at ht
    split at ht
    next h => exact absurd h (by omega)
    next f' hf =>
      obtain rfl : f' = fuel := by omega
      split at ht
      next c rest =>
        by_cases hc : isAlnumChar c
        · rw [if_pos hc] at ht
          rcases List.mem_cons.mp ht with rfl | ht
          · refine ⟨⟨c, _, rfl, hc, fun x hx => List.mem_takeWhile_imp hx⟩, ?_⟩
            have hp : ('-' :: '-' :: c :: rest.takeWhile isWordDashChar) <+:
                ('-' :: '-' :: c :: rest) := by
              refine List.cons_prefix_cons.mpr ⟨rfl, ?_⟩
              refine List.cons_prefix_cons.mpr ⟨rfl, ?_⟩
              refine List.cons_prefix_cons.mpr ⟨rfl, ?_⟩
              exact List.takeWhile_prefix _
            exact hp.isInfix
          · have h2 := ih _ _ ht
            refine ⟨h2.1, h2.2.trans ?_⟩
            exact (((List.dropWhile_suffix _).trans (List.suffix_cons c rest)).trans
              ((List.suffix_cons '-' (c :: rest)).trans
                (List.suffix_cons '-' ('-' :: c :: rest)))).isInfix
        · rw [if_neg hc] at ht
          have h2 := ih _ _ ht
          exact ⟨h2.1, h2.2.trans (List.suffix_cons '-' ('-' :: c :: rest)).isInfix⟩
      next hd tl hcon =>
        have h2 := ih _ _ ht
        exact ⟨h2.1, h2.2.trans (List.suffix_cons hd tl).isInfix⟩
      next =>
        simp at ht

/-- Every extracted flag has the scanned token shape and occurs in the
help text. -/
theorem extract_shape (h : String) (f : String) (hf : f ∈ extract_long_flags h) :
    (∃ c cs, f.data = '-' :: '-' :: c :: cs ∧ isAlnumChar c = true
      ∧ ∀ x ∈ cs, isWordDashChar x = true)
    ∧ f.data <:+: h.data := by
  obtain ⟨t, ht, rfl⟩ := (mem_extract_iff h f).mp hf
  exact findFlagsF_shape _ _ t ht

/-- C5 counterexample: on the help text `a--foo --_bar` the code
collects exactly `--foo` — the token is collected although it is
immediately preceded by the letter `a` — while the rule stated by the
claim collects exactly `--_bar` (it rejects `--foo` as preceded by a
word character and accepts a token whose first character after the
double dash is an underscore, which the code's pattern rejects). -/
theorem flag_extraction_claim_false :
    extract_long_flags "a--foo --_bar" = ["--foo"]
    ∧ claimedFlagExtraction "a--foo --_bar" = ["--_bar"]
    ∧ extract_long_flags "a--foo --_bar" ≠ claimedFlagExtraction "a--foo --_bar" :=
  ⟨by decide, by decide, by decide⟩

/-- C5 (amended): the Flag Extractor collects the distinct tokens of a
leftmost non-overlapping greedy scan for a double dash followed by one
alphanumeric character and then word/dash characters; every collected
flag has that shape and occurs contiguously in the help text, the
collection is duplicate-free, and — unlike what the claim states — a
token immediately preceded by a word character is still collected. -/
theorem flag_extraction_amended (h : String) :
    (∀ f ∈ extract_long_flags h,
      (∃ c cs, f.data = '-' :: '-' :: c :: cs ∧ isAlnumChar c = true
        ∧ ∀ x ∈ cs, isWordDashChar x = true)
      ∧ f.data <:+: h.data)
    ∧ (extract_long_flags h).Nodup
    ∧ extract_long_flags "a--foo" = ["--foo"] :=
  ⟨fun f hf => extract_shape h f hf, extract_nodup h, by decide⟩

/-- Witness for the amended C5 at a concrete help text. -/
theorem flag_extraction_amended_witness :
    "--abc" ∈ extract_long_flags "x --abc"
    ∧ ((∃ c cs, ("--abc" : String).data = '-' :: '-' :: c :: cs ∧ isAlnumChar c = true
        ∧ ∀ x ∈ cs, isWordDashChar x = true)
      ∧ ("--abc" : String).data <:+: ("x --abc" : String).data) :=
  ⟨by decide, (flag_extraction_amended "x --abc").1 "--abc" (by decide)⟩

/-- C10: the extracted flag list is strictly sorted in lexicographic
order and duplicate-free; consequently, when keyword scoring selects a
flag, every flag with an equal score is lexicographically no smaller
than the selected one, and the extracted list is determined by its
member set alone, independent of the order of occurrences in the help
text. -/
theorem flags_sorted_tiebreak (h : String) (keywords : List String) :
    (extract_long_flags h).Sorted (· < ·)
    ∧ (extract_long_flags h).Nodup
    ∧ (∀ f, pick_best_flag (extract_long_flags h) keywords = some f →
        ∀ g ∈ extract_long_flags h,
          flag_score keywords g = flag_score keywords f → f ≤ g)
    ∧ ∀ h2 : String,
        (∀ x : String, x ∈ extract_long_flags h ↔ x ∈ extract_long_flags h2) →
        extract_long_flags h = extract_long_flags h2 := by
  refine ⟨extract_sorted_lt h, extract_nodup h, ?_, ?_⟩
  · intro f hsome g hg hscore
    rcases pickLoop_spec keywords (extract_long_flags h) none (-1) with ⟨heq, _⟩ |
      ⟨l1, f', l2, hsplit, _, hl1, hl2, heq⟩
    · rw [pick_best_flag, heq] at hsome
      exact absurd hsome (by simp)
    · rw [pick_best_flag, heq] at hsome
      by_cases hpos : 0 < (flag_score keywords f' : Int)
      · rw [if_pos hpos] at hsome
        obtain rfl : f' = f := Option.some.inj hsome
        rw [hsplit] at hg
        rcases List.mem_append.mp hg with hg | hg
        · have := hl1 g hg
          omega
        · rcases List.mem_cons.mp hg with rfl | hg
          · exact le_refl _
          · have hs := extract_sorted_le h
            rw [hsplit] at hs
            exact List.rel_of_sorted_cons ((List.pairwise_append).mp hs).2.1 g hg
      · rw [if_neg hpos] at hsome
        exact absurd hsome (by simp)
  · intro h2 hmem
    exact List.eq_of_perm_of_sorted
      ((List.perm_ext_iff_of_nodup (extract_nodup h) (extract_nodup h2)).mpr hmem)
      (extract_sorted_le h) (extract_sorted_le h2)

/-- Witness for C10: on a help text listing `--output` before `--out`,
the extracted list is sorted the other way; with keyword `out` both
flags tie at score 1 and the scorer selects the lexicographically
smaller `--out`. -/
theorem flags_sorted_tiebreak_witness :
    pick_best_flag (extract_long_flags "usage --output --out") ["out"] = some "--out"
    ∧ "--output" ∈ extract_long_flags "usage --output --out"
    ∧ flag_score ["out"] "--output" = flag_score ["out"] "--out"
    ∧ ("--out" : String) ≤ "--output" :=
  ⟨by decide, by decide, by decide,
    (flags_sorted_tiebreak "usage --output --out" ["out"]).2.2.1 "--out" (by decide)
      "--output" (by decide) (by decide)⟩

end CIBandSuite

